import Mathlib

/-!
Shallow embedding of `csv_cleanup_ai_agent.py` (a CSV cleaning pipeline built
on pandas) and proofs about its specification claims.

Modelling conventions:
* a cell is `Option String`; `none` models a pandas missing value (`NaN`)
  or any non-string value fed to the per-cell normalizers;
* a table is a column-name list plus a list of rows, each row a list of
  cells aligned positionally with the column list (as in a DataFrame);
* Python string operations (`strip`, `lower`, `replace`, substring tests,
  the one regex search the parser uses) are modelled character-exactly
  over `List Char` for the ASCII inputs the program manipulates.
-/

/-- Whitespace per Python `str.strip` (ASCII range). -/
def isWs (c : Char) : Bool :=
  c = ' ' || c = '\t' || c = '\n' || c = '\r' || c = '\x0b' || c = '\x0c'

/-- Python `str.strip`: drop whitespace from both ends. -/
def strTrim (s : String) : String :=
  String.mk (((s.toList.dropWhile isWs).reverse.dropWhile isWs).reverse)

/-- Lowercase one ASCII character, as Python `str.lower` does on ASCII. -/
def lowChar (c : Char) : Char :=
  if 65 ≤ c.toNat ∧ c.toNat ≤ 90 then Char.ofNat (c.toNat + 32) else c

/-- Python `str.lower` (ASCII range). -/
def strLower (s : String) : String :=
  String.mk (s.toList.map lowChar)

/-- `listHasPref needle l` is true when `needle` is an initial segment of `l`. -/
def listHasPref : List Char → List Char → Bool
  | [], _ => true
  | _ :: _, [] => false
  | a :: as, b :: bs => a == b && listHasPref as bs

/-- `listHasSub needle l` is true when `needle` occurs contiguously in `l`
(Python's `needle in l`). -/
def listHasSub (needle : List Char) : List Char → Bool
  | [] => listHasPref needle []
  | b :: bs => listHasPref needle (b :: bs) || listHasSub needle bs

/-- Python `needle in hay` on strings. -/
def hasSub (hay needle : String) : Bool :=
  listHasSub needle.toList hay.toList

/-- Fuel-driven worker for `replAll`; each step consumes at least one
character of the subject, so fuel equal to its length always suffices. -/
def replFuel (needle repl : List Char) : Nat → List Char → List Char
  | 0, l => l
  | _ + 1, [] => []
  | f + 1, c :: cs =>
    if listHasPref needle (c :: cs) ∧ needle ≠ [] then
      repl ++ replFuel needle repl f (cs.drop (needle.length - 1))
    else
      c :: replFuel needle repl f cs

/-- Replace every (leftmost, non-overlapping) occurrence of `needle` by
`repl`, as Python `str.replace` / the `re.sub` calls of the source do for
the fixed alternation-free patterns used there. -/
def replAll (needle repl : List Char) (l : List Char) : List Char :=
  replFuel needle repl l.length l

/-- String-level wrapper for `replAll`. -/
def strRepl (s needle repl : String) : String :=
  String.mk (replAll needle.toList repl.toList s.toList)

/-- Lexicographic `≤` on code points, Python's `str` comparison used by
`sort_values` on object columns. -/
def lexLe : List Char → List Char → Bool
  | [], _ => true
  | _ :: _, [] => false
  | a :: as, b :: bs =>
    if a.toNat < b.toNat then true
    else if b.toNat < a.toNat then false
    else lexLe as bs

/-- A DataFrame cell: `none` is pandas `NaN` (or any non-string value). -/
abbrev Cell := Option String

/-- A DataFrame: column names plus rows of cells aligned with the columns. -/
structure Table where
  cols : List String
  rows : List (List Cell)
deriving DecidableEq, Repr

/-- `str(value)` as applied by `.astype(str)`: `NaN` prints as `"nan"`. -/
def cellStr : Cell → String
  | none => "nan"
  | some s => s

/-- Value of the first column named `nm` in a row (`df[nm]` for one row);
`none` when the column is absent or the row is too short. -/
def cellAt : List String → List Cell → String → Cell
  | [], _, _ => none
  | _ :: _, [], _ => none
  | c :: cs, v :: vs, nm => if c = nm then v else cellAt cs vs nm

/-- True when column `nm` exists at a position the row actually covers, so
`cellAt` returns the stored cell rather than a raggedness default. -/
def colHit : List String → List Cell → String → Bool
  | [], _, _ => false
  | _ :: _, [], _ => false
  | c :: cs, _ :: vs, nm => if c = nm then true else colHit cs vs nm

/-- Apply `f` to the cells of every column named `nm`
(`df[nm] = df[nm].apply(f)` for one row). -/
def mapColRow (cols : List String) (nm : String) (f : Cell → Cell) :
    List Cell → List Cell :=
  fun r =>
    match cols, r with
    | [], r => r
    | _ :: _, [] => []
    | c :: cs, v :: vs =>
      (if c = nm then f v else v) :: mapColRow cs nm f vs

-- === Source: utility functions ===

/-- `clean_header` (source line 12): trim, lowercase, spaces and hyphens
to underscores. -/
def clean_header (header : String) : String :=
  strRepl (strRepl (strLower (strTrim header)) " " "_") "-" "_"

/-- `normalize_email` (source lines 15-22). `none` models a non-string
input (`not isinstance(email, str)`). -/
def normalize_email (email : Cell) : String :=
  match email with
  | none => "N/A"
  | some s =>
    if strTrim s = "" ∨ strLower s = "nan" then "N/A"
    else
      let e := strLower (strTrim s)
      let e := strRepl (strRepl (strRepl e "@gamil." "@gmail.") "@gnail." "@gmail.") "@gmial." "@gmail."
      let e := strRepl (strRepl e "@yahooo." "@yahoo.") "@yaho." "@yahoo."
      let e := strRepl (strRepl e "@hotnail." "@hotmail.") "@hotmial." "@hotmail."
      e

/-- `normalize_phone_number` (source lines 24-30). -/
def normalize_phone_number (num : Cell) : String :=
  match num with
  | none => "N/A"
  | some s =>
    if strTrim s = "" ∨ strLower s = "nan" then "N/A"
    else
      let digits := s.toList.filter Char.isDigit
      if digits.length = 10 then
        "(" ++ String.mk (digits.take 3) ++ ") " ++
          String.mk ((digits.drop 3).take 3) ++ "-" ++ String.mk (digits.drop 6)
      else if digits = [] then "N/A"
      else String.mk digits

/-- `column_mapping` (source lines 33-39). -/
def column_mapping : List (String × String) :=
  [("name", "name"), ("full_name", "name"), ("customer_name", "name"), ("first_name", "name"),
   ("email", "email"), ("email_address", "email"), ("e_mail", "email"), ("e-mail", "email"),
   ("age", "age"), ("years_old", "age"), ("age_range", "age"), ("years", "age"),
   ("phone", "phone"), ("phone_number", "phone"), ("contact", "phone"), ("tel", "phone"),
   ("telephone", "phone"),
   ("notes", "notes")]

/-- `standardize_columns` (source lines 32-44): rename each column to its
canonical name when the cleaned name is in the mapping. -/
def standardize_columns (t : Table) : Table :=
  ⟨t.cols.map (fun c =>
      let cc := clean_header c
      (column_mapping.lookup cc).getD cc),
   t.rows⟩

/-- One cell of `fill_and_strip`: `fillna(fill_value)`, then `astype(str)`
and `.str.strip()`, then replace the literal strings `"nan"`/`"None"` by
the fill value (source lines 46-51). -/
def fillCell (fv : String) (c : Cell) : Cell :=
  let s := strTrim (c.getD fv)
  some (if s = "nan" ∨ s = "None" then fv else s)

/-- `fill_and_strip` (source lines 46-51) applied to the whole table. -/
def fill_and_strip (t : Table) (fv : String) : Table :=
  ⟨t.cols, t.rows.map (fun r => r.map (fillCell fv))⟩

/-- Email half of `apply_normalizations` (source lines 54-55), per row. -/
def normRowEmail (cols : List String) (ne : Bool) (r : List Cell) : List Cell :=
  if ne = true ∧ "email" ∈ cols then
    mapColRow cols "email" (fun c => some (normalize_email c)) r
  else r

/-- Row transform of `apply_normalizations` (source lines 53-58): email
column first, then phone column, each only when the flag is set and the
column exists. -/
def normRow (cols : List String) (ne np : Bool) (r : List Cell) : List Cell :=
  if np = true ∧ "phone" ∈ cols then
    mapColRow cols "phone" (fun c => some (normalize_phone_number c)) (normRowEmail cols ne r)
  else normRowEmail cols ne r

/-- `apply_normalizations` (source lines 53-58). -/
def apply_normalizations (t : Table) (ne np : Bool) : Table :=
  ⟨t.cols, t.rows.map (normRow t.cols ne np)⟩

/-- Per-cell test of the `filter_empty` row filter in `main`
(source line 250): `astype(str).str.strip().ne("") & (df[col] != "N/A")`. -/
def keepCellB (c : Cell) : Bool :=
  (strTrim (cellStr c) ≠ "" : Bool) && (c ≠ some "N/A" : Bool)

/-- One `filter_empty` pass of `main` (source lines 248-250): rows are
dropped only when the column exists. -/
def filterEmptyCol (t : Table) (c : String) : Table :=
  if c ∈ t.cols then
    ⟨t.cols, t.rows.filter (fun r => keepCellB (cellAt t.cols r c))⟩
  else t

/-- The keep-only-complete-rows step of `main` (source lines 253-255):
`df.apply(lambda x: all(x != "N/A" and str(x).strip() != ""), axis=1)`.
For each row Series `x`, `x != "N/A"` is a boolean Series and the `and`
then forces `Series.__bool__`, which raises unconditionally — so on any
table with at least one row the step raises
`ValueError: The truth value of a Series is ambiguous` instead of
filtering; no per-cell comparison is ever performed. On a zero-row table
`apply` takes its empty-result path (the lambda's exception is swallowed
by `apply_empty_result`) and the empty table passes through. -/
def keepComplete (t : Table) : Except String Table :=
  match t.rows with
  | [] => Except.ok t
  | _ :: _ => Except.error "ValueError: The truth value of a Series is ambiguous"

/-- `drop_duplicates(keep="first")` with key function `k`: keep a row iff
its key was not seen in an earlier row. -/
def dedupSeen {α κ : Type} [DecidableEq κ] (k : α → κ) :
    List κ → List α → List α
  | _, [] => []
  | seen, r :: rs =>
    if k r ∈ seen then dedupSeen k seen rs
    else r :: dedupSeen k (k r :: seen) rs

/-- `drop_duplicates(keep="first")` under key `k`, starting from no keys. -/
def dedupBy {α κ : Type} [DecidableEq κ] (k : α → κ) (l : List α) : List α :=
  dedupSeen k [] l

/-- Key of a row for `drop_duplicates(subset=sub)`: the cells of the
subset columns in order (pandas compares `NaN` keys as equal there). -/
def subsetKey (cols sub : List String) (r : List Cell) : List Cell :=
  sub.map (cellAt cols r)

/-- `deduplicate` (source lines 60-70): the strategy/column-presence
if-chain; the final branch is a full-row `drop_duplicates(keep="first")`. -/
def deduplicate (t : Table) (strategy : String) : Table :=
  if strategy = "email" ∧ "email" ∈ t.cols then
    ⟨t.cols, dedupBy (subsetKey t.cols ["email"]) t.rows⟩
  else if strategy = "phone" ∧ "phone" ∈ t.cols then
    ⟨t.cols, dedupBy (subsetKey t.cols ["phone"]) t.rows⟩
  else if strategy = "name_email" ∧ "name" ∈ t.cols ∧ "email" ∈ t.cols then
    ⟨t.cols, dedupBy (subsetKey t.cols ["name", "email"]) t.rows⟩
  else if strategy = "name_phone" ∧ "name" ∈ t.cols ∧ "phone" ∈ t.cols then
    ⟨t.cols, dedupBy (subsetKey t.cols ["name", "phone"]) t.rows⟩
  else
    ⟨t.cols, dedupBy (fun r => r) t.rows⟩

/-- Key columns a strategy's branch of `deduplicate` requires. -/
def requiredCols : String → List String
  | "email" => ["email"]
  | "phone" => ["phone"]
  | "name_email" => ["name", "email"]
  | "name_phone" => ["name", "phone"]
  | _ => []

-- === Source: parse_instructions ===

/-- `CleaningDirective`: the `params` dictionary of `parse_instructions`
(source lines 75-83). -/
structure Params where
  fill_empty_with : String
  sort_by : Option String
  filter_empty : List String
  normalize_phone : Bool
  normalize_email : Bool
  keep_only_complete_rows : Bool
  dedup_strategy : String
deriving DecidableEq, Repr

/-- The smart defaults of `parse_instructions` (source lines 75-83). -/
def defaultParams : Params :=
  { fill_empty_with := "N/A"
    sort_by := none
    filter_empty := []
    normalize_phone := true
    normalize_email := true
    keep_only_complete_rows := false
    dedup_strategy := "email" }

/-- The four literal ways the regex
`fill (?:missing|empty)(?: values)? with ` can spell its fixed part;
at any one position at most one of them matches, and the engine prefers
`missing` over `empty` and the present optional group. -/
def fillVariants : List (List Char) :=
  ["fill missing values with ".toList, "fill missing with ".toList,
   "fill empty values with ".toList, "fill empty with ".toList]

/-- Try the fill regex at one position: after the fixed part, the capture
`([^\n,]+)` is the maximal nonempty run of characters other than newline
and comma; an empty run means no match at this position. -/
def fillTryAt (l : List Char) : Option (List Char) :=
  match fillVariants.find? (fun v => listHasPref v l) with
  | some v =>
    let cap := (l.drop v.length).takeWhile (fun c => !(c = '\n' || c = ','))
    if cap.isEmpty then none else some cap
  | none => none

/-- `re.search` for the fill pattern (source line 91): leftmost position
at which the pattern matches, returning the capture. -/
def fillScan : List Char → Option (List Char)
  | [] => none
  | c :: cs =>
    match fillTryAt (c :: cs) with
    | some cap => some cap
    | none => fillScan cs

/-- `parse_instructions` (source lines 73-128). -/
def parse_instructions (text : String) : Params :=
  if text = "" then defaultParams
  else
    let t := strLower text
    let p0 := defaultParams
    let p1 :=
      match fillScan t.toList with
      | some cap => { p0 with fill_empty_with := strTrim (String.mk cap) }
      | none =>
        if hasSub t "fill missing with unknown" then
          { p0 with fill_empty_with := "Unknown" }
        else if hasSub t "fill missing with blank" || hasSub t "leave empty" then
          { p0 with fill_empty_with := "" }
        else p0
    let p2 :=
      if hasSub t "sort by age" || hasSub t "order by age" then
        { p1 with sort_by := some "age" }
      else if hasSub t "sort by name" || hasSub t "order by name" || hasSub t "alphabetical" then
        { p1 with sort_by := some "name" }
      else p1
    let p3 :=
      { p2 with filter_empty :=
          p2.filter_empty ++
          (if hasSub t "remove rows where email is empty" || hasSub t "delete empty emails" then
            ["email"] else []) ++
          (if hasSub t "remove rows where phone is empty" || hasSub t "delete empty phones" then
            ["phone"] else []) ++
          (if hasSub t "remove rows where name is empty" || hasSub t "delete empty names" then
            ["name"] else []) }
    let p4 :=
      if hasSub t "only complete rows" || hasSub t "complete data only" ||
          hasSub t "no empty fields" || hasSub t "no missing data" then
        { p3 with keep_only_complete_rows := true }
      else p3
    if hasSub t "dedup by phone" || hasSub t "dedupe by phone" ||
        hasSub t "remove duplicate phones" then
      { p4 with dedup_strategy := "phone" }
    else if hasSub t "dedup by name and email" || hasSub t "dedupe by name and email" ||
        hasSub t "remove duplicates by name+email" then
      { p4 with dedup_strategy := "name_email" }
    else if hasSub t "dedup by name and phone" || hasSub t "dedupe by name and phone" ||
        hasSub t "remove duplicates by name+phone" then
      { p4 with dedup_strategy := "name_phone" }
    else if hasSub t "remove all duplicates" || hasSub t "dedup everything" then
      { p4 with dedup_strategy := "all_columns" }
    else p4

-- === Source: the cleaning pipeline of main (lines 239-269) ===

/-- `pd.concat(processed_dfs, ignore_index=True)` (source line 262):
columns are unioned in order of first appearance; each row is re-aligned
to the merged schema with `NaN` for columns its table lacks. -/
def concatCols (ts : List Table) : List String :=
  ts.foldl (fun acc t => acc ++ t.cols.filter (fun c => c ∉ acc)) []

/-- Row bodies of `pd.concat`: every row re-aligned to the merged schema. -/
def concatRows (ts : List Table) : List (List Cell) :=
  (ts.map (fun t => t.rows.map (fun r => (concatCols ts).map (cellAt t.cols r)))).flatten

/-- `pd.concat(processed_dfs, ignore_index=True)` assembled. -/
def concatTables (ts : List Table) : Table :=
  ⟨concatCols ts, concatRows ts⟩

/-- Cell comparison used by `sort_values(na_position="last")`: a missing
(`NaN`) key sorts after everything; present keys compare as Python
strings (code-point lexicographic). -/
def keyLe : Cell → Cell → Bool
  | none, none => true
  | none, some _ => false
  | some _, none => true
  | some a, some b => lexLe a.toList b.toList

/-- Row comparison of `sort_values(by=k, na_position="last")`
(source line 269): compare the key column's cells. -/
def rowLe (cols : List String) (k : String) (r1 r2 : List Cell) : Bool :=
  keyLe (cellAt cols r1 k) (cellAt cols r2 k)

/-- The sort step of `main` (source lines 267-269): only when a sort key
is set and its column exists in the merged table. -/
def sortStep (t : Table) (sb : Option String) : Table :=
  match sb with
  | none => t
  | some k =>
    if k ∈ t.cols then
      ⟨t.cols, List.insertionSort (fun a b => rowLe t.cols k a b = true) t.rows⟩
    else t

/-- The per-table stage of `main` (source lines 241-259): standardize,
fill-and-strip, normalize, column filters, completeness filter,
deduplicate. -/
def preDedup (p : Params) (t : Table) : Except String Table :=
  if p.keep_only_complete_rows then
    keepComplete (p.filter_empty.foldl filterEmptyCol
      (apply_normalizations (fill_and_strip (standardize_columns t) p.fill_empty_with)
        p.normalize_email p.normalize_phone))
  else
    Except.ok (p.filter_empty.foldl filterEmptyCol
      (apply_normalizations (fill_and_strip (standardize_columns t) p.fill_empty_with)
        p.normalize_email p.normalize_phone))

/-- The per-table stage including the final per-table `deduplicate`; a
raised `ValueError` aborts the stage (nothing in `main` catches it). -/
def processOne (p : Params) (t : Table) : Except String Table :=
  match preDedup p t with
  | Except.ok t5 => Except.ok (deduplicate t5 p.dedup_strategy)
  | Except.error e => Except.error e

/-- The `for df in dataframes` loop of `main` (source lines 241-259): an
exception while processing any table aborts the whole run. -/
def processAll (p : Params) : List Table → Except String (List Table)
  | [] => Except.ok []
  | t :: ts =>
    match processOne p t with
    | Except.error e => Except.error e
    | Except.ok t2 =>
      match processAll p ts with
      | Except.error e => Except.error e
      | Except.ok ts2 => Except.ok (t2 :: ts2)

/-- The whole cleaning run of `main` (source lines 239-269): parse the
instruction, process each table, merge, re-deduplicate, sort; an
uncaught `ValueError` ends the run with no output table. -/
def pipelineRun (text : String) (ts : List Table) : Except String Table :=
  match processAll (parse_instructions text) ts with
  | Except.error e => Except.error e
  | Except.ok ps =>
    Except.ok (sortStep
      (deduplicate (concatTables ps) (parse_instructions text).dedup_strategy)
      (parse_instructions text).sort_by)

-- === Lemmas about drop_duplicates ===

/-- Branch selector of `deduplicate`, factored out: which key function the
strategy/column if-chain picks for a given schema. -/
def dKey (cols : List String) (s : String) : List Cell → List Cell :=
  if s = "email" ∧ "email" ∈ cols then subsetKey cols ["email"]
  else if s = "phone" ∧ "phone" ∈ cols then subsetKey cols ["phone"]
  else if s = "name_email" ∧ "name" ∈ cols ∧ "email" ∈ cols then subsetKey cols ["name", "email"]
  else if s = "name_phone" ∧ "name" ∈ cols ∧ "phone" ∈ cols then subsetKey cols ["name", "phone"]
  else fun r => r

theorem deduplicate_eq (t : Table) (s : String) :
    deduplicate t s = ⟨t.cols, dedupBy (dKey t.cols s) t.rows⟩ := by
  unfold deduplicate dKey
  split_ifs <;> rfl

theorem dedupSeen_sublist {α κ : Type} [DecidableEq κ] (k : α → κ) :
    ∀ (seen : List κ) (l : List α), (dedupSeen k seen l).Sublist l := by
  intro seen l
  induction l generalizing seen with
  | nil => simp [dedupSeen]
  | cons a l ih =>
    simp only [dedupSeen]
    split
    · exact List.Sublist.cons _ (ih seen)
    · exact List.Sublist.cons₂ _ (ih _)

theorem dedupSeen_notin_seen {α κ : Type} [DecidableEq κ] (k : α → κ) :
    ∀ (seen : List κ) (l : List α) (a : α), a ∈ dedupSeen k seen l → k a ∉ seen := by
  intro seen l
  induction l generalizing seen with
  | nil => simp [dedupSeen]
  | cons b l ih =>
    intro a ha
    simp only [dedupSeen] at ha
    by_cases hmem : k b ∈ seen
    · rw [if_pos hmem] at ha
      exact ih seen a ha
    · rw [if_neg hmem] at ha
      rcases List.mem_cons.mp ha with rfl | h
      · exact hmem
      · exact fun hk => ih _ a h (List.mem_cons_of_mem _ hk)

theorem dedupSeen_keys_nodup {α κ : Type} [DecidableEq κ] (k : α → κ) :
    ∀ (seen : List κ) (l : List α), ((dedupSeen k seen l).map k).Nodup := by
  intro seen l
  induction l generalizing seen with
  | nil => simp [dedupSeen]
  | cons b l ih =>
    simp only [dedupSeen]
    by_cases hmem : k b ∈ seen
    · rw [if_pos hmem]
      exact ih seen
    · rw [if_neg hmem]
      simp only [List.map_cons, List.nodup_cons]
      refine ⟨?_, ih _⟩
      intro hk
      rcases List.mem_map.mp hk with ⟨a, ha, hka⟩
      exact dedupSeen_notin_seen k _ _ _ ha (by rw [hka]; exact List.mem_cons_self _ _)

theorem dedupSeen_eq_self {α κ : Type} [DecidableEq κ] (k : α → κ) :
    ∀ (l : List α) (seen : List κ), (l.map k).Nodup → (∀ a ∈ l, k a ∉ seen) →
      dedupSeen k seen l = l := by
  intro l
  induction l with
  | nil => intro seen _ _; rfl
  | cons b l ih =>
    intro seen hnd hseen
    simp only [dedupSeen]
    rw [if_neg (hseen b (List.mem_cons_self _ _))]
    simp only [List.map_cons, List.nodup_cons] at hnd
    congr 1
    refine ih _ hnd.2 ?_
    intro a ha
    simp only [List.mem_cons]
    push_neg
    refine ⟨?_, hseen a (List.mem_cons_of_mem _ ha)⟩
    intro hab
    exact hnd.1 (by rw [← hab]; exact List.mem_map_of_mem k ha)

theorem dedupBy_idem {α κ : Type} [DecidableEq κ] (k : α → κ) (l : List α) :
    dedupBy k (dedupBy k l) = dedupBy k l :=
  dedupSeen_eq_self k _ _ (dedupSeen_keys_nodup k [] l) (by simp)

theorem dedupSeen_find? {α κ : Type} [DecidableEq κ] (k : α → κ) :
    ∀ (l : List α) (seen : List κ) (K : κ), K ∉ seen →
      (dedupSeen k seen l).find? (fun a => decide (k a = K)) =
        l.find? (fun a => decide (k a = K)) := by
  intro l
  induction l with
  | nil => intro seen K _; rfl
  | cons b l ih =>
    intro seen K hK
    simp only [dedupSeen]
    by_cases hmem : k b ∈ seen
    · rw [if_pos hmem]
      have hne : ¬(k b = K) := fun h => hK (h ▸ hmem)
      rw [List.find?_cons_of_neg _ (by simpa using hne)]
      exact ih seen K hK
    · rw [if_neg hmem]
      by_cases heq : k b = K
      · rw [List.find?_cons_of_pos _ (by simpa using heq),
          List.find?_cons_of_pos _ (by simpa using heq)]
      · rw [List.find?_cons_of_neg _ (by simpa using heq),
          List.find?_cons_of_neg _ (by simpa using heq)]
        refine ih _ K ?_
        simp only [List.mem_cons]
        push_neg
        exact ⟨fun h => heq h.symm, hK⟩

theorem dKey_of_required (t : Table) (s : String)
    (hs : s ∈ (["email", "phone", "name_email", "name_phone"] : List String))
    (hc : ∀ c ∈ requiredCols s, c ∈ t.cols) :
    dKey t.cols s = subsetKey t.cols (requiredCols s) := by
  simp only [List.mem_cons, List.not_mem_nil, or_false] at hs
  rcases hs with rfl | rfl | rfl | rfl
  · have h1 : "email" ∈ t.cols := hc _ (by simp [requiredCols])
    unfold dKey
    rw [if_pos ⟨rfl, h1⟩]
    rfl
  · have h1 : "phone" ∈ t.cols := hc _ (by simp [requiredCols])
    unfold dKey
    rw [if_neg (by simp), if_pos ⟨rfl, h1⟩]
    rfl
  · have h1 : "name" ∈ t.cols := hc _ (by simp [requiredCols])
    have h2 : "email" ∈ t.cols := hc _ (by simp [requiredCols])
    unfold dKey
    rw [if_neg (by simp), if_neg (by simp), if_pos ⟨rfl, h1, h2⟩]
    rfl
  · have h1 : "name" ∈ t.cols := hc _ (by simp [requiredCols])
    have h2 : "phone" ∈ t.cols := hc _ (by simp [requiredCols])
    unfold dKey
    rw [if_neg (by simp), if_neg (by simp), if_neg (by simp), if_pos ⟨rfl, h1, h2⟩]
    rfl

theorem dKey_of_missing (t : Table) (s : String)
    (hs : s ∈ (["email", "phone", "name_email", "name_phone"] : List String))
    (hc : ¬ ∀ c ∈ requiredCols s, c ∈ t.cols) :
    dKey t.cols s = fun r => r := by
  simp only [List.mem_cons, List.not_mem_nil, or_false] at hs
  push_neg at hc
  obtain ⟨c, hcr, hcn⟩ := hc
  rcases hs with rfl | rfl | rfl | rfl <;>
    simp only [requiredCols, List.mem_cons, List.not_mem_nil, or_false] at hcr
  · subst hcr
    unfold dKey
    rw [if_neg (by simp [hcn]), if_neg (by simp), if_neg (by simp), if_neg (by simp)]
  · subst hcr
    unfold dKey
    rw [if_neg (by simp), if_neg (by simp [hcn]), if_neg (by simp), if_neg (by simp)]
  · unfold dKey
    rcases hcr with rfl | rfl <;>
      rw [if_neg (by simp), if_neg (by simp), if_neg (by simp [hcn]), if_neg (by simp)]
  · unfold dKey
    rcases hcr with rfl | rfl <;>
      rw [if_neg (by simp), if_neg (by simp), if_neg (by simp), if_neg (by simp [hcn])]

/-- C7: for every table and every strategy, `deduplicate` is idempotent:
applying it twice with the same strategy equals applying it once. -/
theorem C7_deduplicate_idempotent (t : Table) (s : String) :
    deduplicate (deduplicate t s) s = deduplicate t s := by
  simp only [deduplicate_eq]
  rw [dedupBy_idem]

/-- C8: when the key column(s) of one of the four keyed strategies are all
present, `deduplicate` keys rows by the exact (string) values of those
columns — the sentinel `"N/A"` included: the result is a subsequence of the
input, its keys are pairwise distinct, and for every key the surviving row
is the first input row carrying that key. -/
theorem C8_dedup_exact_string_keys (t : Table) (s : String)
    (hs : s ∈ (["email", "phone", "name_email", "name_phone"] : List String))
    (hc : ∀ c ∈ requiredCols s, c ∈ t.cols) :
    (deduplicate t s).rows.Sublist t.rows ∧
    ((deduplicate t s).rows.map (subsetKey t.cols (requiredCols s))).Nodup ∧
    ∀ K : List Cell,
      (deduplicate t s).rows.find? (fun r => decide (subsetKey t.cols (requiredCols s) r = K)) =
        t.rows.find? (fun r => decide (subsetKey t.cols (requiredCols s) r = K)) := by
  rw [deduplicate_eq, dKey_of_required t s hs hc]
  exact ⟨dedupSeen_sublist _ _ _, dedupSeen_keys_nodup _ _ _,
    fun K => dedupSeen_find? _ _ _ K (List.not_mem_nil K)⟩

/-- Witness for C8 at a concrete table whose two rows both carry the
sentinel `"N/A"` in the email column: only the first survives. -/
theorem C8_witness :
    (deduplicate ⟨["email"], [[some "N/A"], [some "N/A"]]⟩ "email").rows.Sublist
        [[some "N/A"], [some "N/A"]] ∧
    ((deduplicate ⟨["email"], [[some "N/A"], [some "N/A"]]⟩ "email").rows.map
        (subsetKey ["email"] (requiredCols "email"))).Nodup ∧
    (deduplicate ⟨["email"], [[some "N/A"], [some "N/A"]]⟩ "email").rows.find?
        (fun r => decide (subsetKey ["email"] (requiredCols "email") r = [some "N/A"])) =
      [[some "N/A"], [some "N/A"]].find?
        (fun r => decide (subsetKey ["email"] (requiredCols "email") r = [some "N/A"])) := by
  have h := C8_dedup_exact_string_keys ⟨["email"], [[some "N/A"], [some "N/A"]]⟩ "email"
    (by decide) (by decide)
  exact ⟨h.1, h.2.1, h.2.2 [some "N/A"]⟩

/-- C1 counterexample: strategy `email` on a table without an `email`
column does NOT return the table unchanged — the exact-duplicate second
row is removed by the full-row fallback. -/
theorem C1_counterexample :
    deduplicate ⟨["phone"], [[some "1"], [some "1"]]⟩ "email" ≠
      ⟨["phone"], [[some "1"], [some "1"]]⟩ := by
  decide

/-- C1 amended: for the four keyed strategies, when the required key
column(s) are not all present, `deduplicate` degrades to exact full-row
duplicate removal (`drop_duplicates` with no subset), not to a no-op. -/
theorem C1_missing_key_falls_back_to_full_row (t : Table) (s : String)
    (hs : s ∈ (["email", "phone", "name_email", "name_phone"] : List String))
    (hc : ¬ ∀ c ∈ requiredCols s, c ∈ t.cols) :
    deduplicate t s = ⟨t.cols, dedupBy (fun r => r) t.rows⟩ := by
  rw [deduplicate_eq, dKey_of_missing t s hs hc]

/-- Witness for the amended C1 on a concrete columnless-key table. -/
theorem C1_witness :
    deduplicate ⟨["phone"], [[some "1"], [some "1"]]⟩ "email" =
      ⟨["phone"], dedupBy (fun r => r) [[some "1"], [some "1"]]⟩ :=
  C1_missing_key_falls_back_to_full_row ⟨["phone"], [[some "1"], [some "1"]]⟩ "email"
    (by decide) (by decide)

/-- C9: `normalize_email` fixes the `gamil` typo and lowercases; the empty
string and a non-string input both yield the sentinel `"N/A"`. -/
theorem C9_normalize_email_values :
    normalize_email (some "JOHN@GAMIL.COM") = "john@gmail.com" ∧
    normalize_email (some "") = "N/A" ∧
    normalize_email none = "N/A" := by
  decide

/-- C10: parsing the empty instruction yields exactly the default
directive: fill `"N/A"`, no sort key, strategy `email`, no filters, no
completeness requirement, both normalization flags on. -/
theorem C10_parse_empty_is_default :
    parse_instructions "" = defaultParams ∧
    defaultParams.fill_empty_with = "N/A" ∧
    defaultParams.sort_by = none ∧
    defaultParams.dedup_strategy = "email" ∧
    defaultParams.filter_empty = [] ∧
    defaultParams.keep_only_complete_rows = false ∧
    defaultParams.normalize_email = true ∧
    defaultParams.normalize_phone = true := by
  decide

/-- C4 counterexample: on "Remove duplicate phones and fill empty with
blank" the parser does NOT set the fill value to the empty string. -/
theorem C4_counterexample :
    (parse_instructions "Remove duplicate phones and fill empty with blank").fill_empty_with
      ≠ "" := by
  decide

/-- C4 amended: that instruction yields `dedup_strategy = "phone"`, but
the generic fill pattern fires first and captures the literal word
`"blank"` as the fill value (the `"fill missing with blank" -> ""` branch
is never reached). -/
theorem C4_parse_phones_blank :
    (parse_instructions "Remove duplicate phones and fill empty with blank").dedup_strategy
        = "phone" ∧
    (parse_instructions "Remove duplicate phones and fill empty with blank").fill_empty_with
        = "blank" := by
  decide

/-- C2 counterexample: with the non-empty fill value `"N/A"`, a cell that
contained only whitespace is stripped to the literal empty string by
`fill_and_strip`. -/
theorem C2_counterexample :
    ("N/A" ≠ "") ∧
    ¬ (∀ r ∈ (fill_and_strip ⟨["notes"], [[some " "]]⟩ "N/A").rows, ∀ c ∈ r, c ≠ some "") := by
  decide

/-- C2 amended: `fill_and_strip` leaves no literal-empty-string cell
provided the fill value does not strip to empty AND no present cell is a
(nonempty or empty) all-whitespace string; whitespace-only cells are the
one way an empty cell survives a non-empty fill value. -/
theorem C2_no_empty_cells_unless_whitespace (t : Table) (fv : String)
    (hfv : strTrim fv ≠ "")
    (hws : ∀ r ∈ t.rows, ∀ c ∈ r, ∀ w : String, c = some w → strTrim w ≠ "") :
    ∀ r ∈ (fill_and_strip t fv).rows, ∀ c ∈ r, c ≠ some "" := by
  intro r hr c hc
  simp only [fill_and_strip, List.mem_map] at hr
  obtain ⟨r0, hr0, rfl⟩ := hr
  simp only [List.mem_map] at hc
  obtain ⟨c0, hc0, rfl⟩ := hc
  simp only [fillCell]
  intro hbad
  rw [Option.some.injEq] at hbad
  by_cases hsent : strTrim (c0.getD fv) = "nan" ∨ strTrim (c0.getD fv) = "None"
  · rw [if_pos hsent] at hbad
    subst hbad
    exact hfv (by decide)
  · rw [if_neg hsent] at hbad
    cases c0 with
    | none => exact hfv (by simpa using hbad)
    | some w => exact hws r0 hr0 _ hc0 w rfl (by simpa using hbad)

/-- Witness for the amended C2: on a concrete table with an ordinary cell
the first output cell of `fill_and_strip` is not the empty string. -/
theorem C2_witness :
    ((fill_and_strip ⟨["notes", "age"], [[some " x ", none], [some "nan", some "7"]]⟩
        "N/A").rows.getD 0 []).getD 0 none ≠ some "" :=
  C2_no_empty_cells_unless_whitespace
    ⟨["notes", "age"], [[some " x ", none], [some "nan", some "7"]]⟩ "N/A"
    (by decide) (by decide)
    ((fill_and_strip ⟨["notes", "age"], [[some " x ", none], [some "nan", some "7"]]⟩
        "N/A").rows.getD 0 [])
    (by decide)
    (((fill_and_strip ⟨["notes", "age"], [[some " x ", none], [some "nan", some "7"]]⟩
        "N/A").rows.getD 0 []).getD 0 none)
    (by decide)

-- === Lemmas about per-column cell access under the row transforms ===

theorem colHit_mem : ∀ (cols : List String) (r : List Cell) (nm : String),
    colHit cols r nm = true → nm ∈ cols := by
  intro cols
  induction cols with
  | nil => intro r nm h; simp [colHit] at h
  | cons c cs ih =>
    intro r nm h
    cases r with
    | nil => simp [colHit] at h
    | cons v vs =>
      simp only [colHit] at h
      by_cases hc : c = nm
      · rw [hc]; exact List.mem_cons_self _ _
      · rw [if_neg hc] at h
        exact List.mem_cons_of_mem _ (ih vs nm h)

theorem colHit_map (f : Cell → Cell) : ∀ (cols : List String) (r : List Cell) (nm : String),
    colHit cols (r.map f) nm = colHit cols r nm := by
  intro cols
  induction cols with
  | nil => intro r nm; cases r <;> rfl
  | cons c cs ih =>
    intro r nm
    cases r with
    | nil => rfl
    | cons v vs =>
      simp only [List.map_cons, colHit]
      rw [ih]

theorem cellAt_map (f : Cell → Cell) : ∀ (cols : List String) (r : List Cell) (nm : String),
    colHit cols r nm = true → cellAt cols (r.map f) nm = f (cellAt cols r nm) := by
  intro cols
  induction cols with
  | nil => intro r nm h; simp [colHit] at h
  | cons c cs ih =>
    intro r nm h
    cases r with
    | nil => simp [colHit] at h
    | cons v vs =>
      simp only [colHit] at h
      simp only [List.map_cons, cellAt]
      by_cases hc : c = nm
      · rw [if_pos hc, if_pos hc]
      · rw [if_neg hc, if_neg hc]
        rw [if_neg hc] at h
        exact ih vs nm h

theorem colHit_mapColRow (nmm : String) (f : Cell → Cell) :
    ∀ (cols : List String) (r : List Cell) (nm : String),
      colHit cols (mapColRow cols nmm f r) nm = colHit cols r nm := by
  intro cols
  induction cols with
  | nil => intro r nm; rfl
  | cons c cs ih =>
    intro r nm
    cases r with
    | nil => rfl
    | cons v vs =>
      simp only [mapColRow, colHit]
      rw [ih]

theorem cellAt_mapColRow (f : Cell → Cell) :
    ∀ (cols : List String) (r : List Cell) (nm : String),
      colHit cols r nm = true →
      cellAt cols (mapColRow cols nm f r) nm = f (cellAt cols r nm) := by
  intro cols
  induction cols with
  | nil => intro r nm h; simp [colHit] at h
  | cons c cs ih =>
    intro r nm h
    cases r with
    | nil => simp [colHit] at h
    | cons v vs =>
      simp only [colHit] at h
      simp only [mapColRow, cellAt]
      by_cases hc : c = nm
      · rw [if_pos hc, if_pos hc, if_pos hc]
      · rw [if_neg hc, if_neg hc]
        rw [if_neg hc] at h
        exact ih vs nm h

theorem cellAt_mapColRow_ne (nmm nm : String) (f : Cell → Cell) (hne : nmm ≠ nm) :
    ∀ (cols : List String) (r : List Cell),
      cellAt cols (mapColRow cols nmm f r) nm = cellAt cols r nm := by
  intro cols
  induction cols with
  | nil => intro r; rfl
  | cons c cs ih =>
    intro r
    cases r with
    | nil => rfl
    | cons v vs =>
      simp only [mapColRow, cellAt]
      by_cases hc : c = nm
      · have hcm : ¬ c = nmm := by rw [hc]; exact fun h => hne h.symm
        rw [if_pos hc, if_pos hc, if_neg hcm]
      · rw [if_neg hc, if_neg hc]
        exact ih vs

/-- C3 counterexample: the keep-only-complete-rows step never compares
any cell with `"N/A"`: on a (nonempty) table whose email cell is the
normalized `"n/a"`, the step raises `ValueError` instead of returning
the table with the row kept. -/
theorem C3_counterexample :
    keepComplete ⟨["email"], [[some "n/a"]]⟩ ≠
      Except.ok ⟨["email"], [[some "n/a"]]⟩ := by
  intro h
  exact Except.noConfusion h

/-- C3 amended: `normalize_email` maps the sentinel `"N/A"` to the
lowercased `"n/a"`, so under the default fill value an originally missing
email cell comes out of fill-and-strip plus normalization as `"n/a"`, and
the empty-email row filter — whose cell test compares against the exact
strings `""` and `"N/A"` — keeps such rows. The keep-only-complete-rows
step, however, performs no cell comparison at all: it is off in the
default directive, and when enabled it raises `ValueError` on every
nonempty table. -/
theorem C3_missing_email_survives_email_filter (cols : List String) (r : List Cell)
    (hhit : colHit cols r "email" = true)
    (hmiss : cellAt cols r "email" = none) :
    defaultParams.fill_empty_with = "N/A" ∧
    defaultParams.keep_only_complete_rows = false ∧
    normalize_email (some "N/A") = "n/a" ∧
    cellAt cols (normRow cols true true (r.map (fillCell "N/A"))) "email" = some "n/a" ∧
    keepCellB (cellAt cols (normRow cols true true (r.map (fillCell "N/A"))) "email") = true ∧
    (∀ t2 : Table, t2.cols = cols →
      normRow cols true true (r.map (fillCell "N/A")) ∈ t2.rows →
      normRow cols true true (r.map (fillCell "N/A")) ∈ (filterEmptyCol t2 "email").rows) ∧
    ∀ t2 : Table, t2.rows ≠ [] →
      keepComplete t2 =
        Except.error "ValueError: The truth value of a Series is ambiguous" := by
  have hmem : "email" ∈ cols := colHit_mem cols r "email" hhit
  have h1 : colHit cols (r.map (fillCell "N/A")) "email" = true := by
    rw [colHit_map]
    exact hhit
  have key : cellAt cols (normRow cols true true (r.map (fillCell "N/A"))) "email"
      = some "n/a" := by
    unfold normRow normRowEmail
    by_cases hp : "phone" ∈ cols
    · rw [if_pos ⟨rfl, hp⟩, if_pos ⟨rfl, hmem⟩,
        cellAt_mapColRow_ne "phone" "email" _ (by decide),
        cellAt_mapColRow _ cols _ "email" h1, cellAt_map _ cols r "email" hhit, hmiss]
      decide
    · rw [if_neg (fun hh => hp hh.2), if_pos ⟨rfl, hmem⟩,
        cellAt_mapColRow _ cols _ "email" h1,
        cellAt_map _ cols r "email" hhit, hmiss]
      decide
  refine ⟨rfl, rfl, by decide, key, ?_, ?_, ?_⟩
  · rw [key]
    decide
  · intro t2 hc2 hr2
    unfold filterEmptyCol
    rw [if_pos (show "email" ∈ t2.cols by rw [hc2]; exact hmem)]
    apply List.mem_filter.mpr
    refine ⟨hr2, ?_⟩
    rw [hc2, key]
    decide
  · intro t2 h2
    unfold keepComplete
    cases ht : t2.rows with
    | nil => exact absurd ht h2
    | cons a l => rfl

/-- Witness for the amended C3 on the one-column table whose email cell
is missing. -/
theorem C3_witness :
    defaultParams.fill_empty_with = "N/A" ∧
    defaultParams.keep_only_complete_rows = false ∧
    normalize_email (some "N/A") = "n/a" ∧
    cellAt ["email"] (normRow ["email"] true true ([none].map (fillCell "N/A"))) "email"
        = some "n/a" ∧
    keepCellB (cellAt ["email"] (normRow ["email"] true true ([none].map (fillCell "N/A")))
        "email") = true ∧
    normRow ["email"] true true ([none].map (fillCell "N/A")) ∈
      (filterEmptyCol
        ⟨["email"], [normRow ["email"] true true ([none].map (fillCell "N/A"))]⟩
        "email").rows ∧
    keepComplete ⟨["email"], [normRow ["email"] true true ([none].map (fillCell "N/A"))]⟩
      = Except.error "ValueError: The truth value of a Series is ambiguous" := by
  have h := C3_missing_email_survives_email_filter ["email"] [none] (by decide) (by decide)
  exact ⟨h.1, h.2.1, h.2.2.1, h.2.2.2.1, h.2.2.2.2.1,
    h.2.2.2.2.2.1 ⟨["email"], [normRow ["email"] true true ([none].map (fillCell "N/A"))]⟩
      rfl (List.mem_cons_self _ _),
    h.2.2.2.2.2.2 ⟨["email"], [normRow ["email"] true true ([none].map (fillCell "N/A"))]⟩
      (by simp)⟩

-- === Lemmas about the sort comparison ===

theorem lexLe_total : ∀ a b : List Char, lexLe a b = true ∨ lexLe b a = true := by
  intro a
  induction a with
  | nil => intro b; left; rfl
  | cons x xs ih =>
    intro b
    cases b with
    | nil => right; rfl
    | cons y ys =>
      simp only [lexLe]
      rcases Nat.lt_trichotomy x.toNat y.toNat with h | h | h
      · left
        rw [if_pos h]
      · have hxy : ¬ x.toNat < y.toNat := by omega
        have hyx : ¬ y.toNat < x.toNat := by omega
        rw [if_neg hxy, if_neg hyx, if_neg hyx, if_neg hxy]
        exact ih ys
      · right
        rw [if_pos h]

theorem lexLe_trans : ∀ a b c : List Char,
    lexLe a b = true → lexLe b c = true → lexLe a c = true := by
  intro a
  induction a with
  | nil => intro b c _ _; rfl
  | cons x xs ih =>
    intro b c hab hbc
    cases b with
    | nil => simp [lexLe] at hab
    | cons y ys =>
      cases c with
      | nil => simp [lexLe] at hbc
      | cons z zs =>
        simp only [lexLe] at hab hbc ⊢
        by_cases h1 : x.toNat < y.toNat
        · -- x < y; combined with y ≤ z we get x < z
          by_cases h2 : y.toNat < z.toNat
          · rw [if_pos (by omega : x.toNat < z.toNat)]
          · by_cases h3 : z.toNat < y.toNat
            · rw [if_neg h2, if_pos h3] at hbc
              exact absurd hbc (by simp)
            · rw [if_pos (by omega : x.toNat < z.toNat)]
        · by_cases h4 : y.toNat < x.toNat
          · rw [if_neg h1, if_pos h4] at hab
            exact absurd hab (by simp)
          · -- x = y
            by_cases h2 : y.toNat < z.toNat
            · rw [if_pos (by omega : x.toNat < z.toNat)]
            · by_cases h3 : z.toNat < y.toNat
              · rw [if_neg h2, if_pos h3] at hbc
                exact absurd hbc (by simp)
              · -- x = y = z
                rw [if_neg h1, if_neg h4] at hab
                rw [if_neg h2, if_neg h3] at hbc
                rw [if_neg (by omega : ¬ x.toNat < z.toNat),
                  if_neg (by omega : ¬ z.toNat < x.toNat)]
                exact ih ys zs hab hbc

theorem keyLe_total : ∀ c1 c2 : Cell, keyLe c1 c2 = true ∨ keyLe c2 c1 = true := by
  intro c1 c2
  cases c1 with
  | none =>
    cases c2 with
    | none => left; rfl
    | some b => right; rfl
  | some a =>
    cases c2 with
    | none => left; rfl
    | some b => exact lexLe_total a.toList b.toList

theorem keyLe_trans : ∀ c1 c2 c3 : Cell,
    keyLe c1 c2 = true → keyLe c2 c3 = true → keyLe c1 c3 = true := by
  intro c1 c2 c3 h12 h23
  cases c1 with
  | none =>
    cases c3 with
    | none => rfl
    | some cc =>
      cases c2 with
      | none => exact h23
      | some b => exact absurd h12 (by simp [keyLe])
  | some a =>
    cases c3 with
    | none => rfl
    | some cc =>
      cases c2 with
      | none => exact absurd h23 (by simp [keyLe])
      | some b => exact lexLe_trans a.toList b.toList cc.toList h12 h23

theorem rowLe_total (cols : List String) (k : String) :
    ∀ r1 r2 : List Cell, rowLe cols k r1 r2 = true ∨ rowLe cols k r2 r1 = true := by
  intro r1 r2
  exact keyLe_total _ _

theorem rowLe_trans (cols : List String) (k : String) :
    ∀ r1 r2 r3 : List Cell, rowLe cols k r1 r2 = true → rowLe cols k r2 r3 = true →
      rowLe cols k r1 r3 = true := by
  intro r1 r2 r3 h12 h23
  exact keyLe_trans _ _ _ h12 h23

/-- C5 counterexample: sorting by `name` a merged table holding the rows
`"Zoe"` and `"N/A"` puts the sentinel row FIRST, not after the
non-sentinel row: `na_position="last"` only moves true `NaN`, while the
string `"N/A"` sorts lexicographically. -/
theorem C5_counterexample :
    (sortStep ⟨["name"], [[some "Zoe"], [some "N/A"]]⟩ (some "name")).rows.head?
        = some [some "N/A"] ∧
    (sortStep ⟨["name"], [[some "Zoe"], [some "N/A"]]⟩ (some "name")).rows.getLast?
        ≠ some [some "N/A"] := by
  decide

/-- C5 amended: when the sort key column exists, the final step sorts the
merged rows ascending by the key column under `rowLe` — code-point
lexicographic comparison of present string cells, with truly missing
(`NaN`) key cells ordered last, and the sentinel `"N/A"` treated as an
ordinary string rather than forced last; when the sort key column does
not exist, the table is returned unchanged. -/
theorem C5_sort_is_lexicographic (t : Table) (k : String) :
    (k ∈ t.cols →
      (sortStep t (some k)).cols = t.cols ∧
      (sortStep t (some k)).rows.Perm t.rows ∧
      (sortStep t (some k)).rows.Sorted (fun a b => rowLe t.cols k a b = true)) ∧
    (k ∉ t.cols → sortStep t (some k) = t) := by
  constructor
  · intro hk
    simp only [sortStep]
    rw [if_pos hk]
    haveI : IsTotal (List Cell) (fun a b => rowLe t.cols k a b = true) :=
      ⟨rowLe_total t.cols k⟩
    haveI : IsTrans (List Cell) (fun a b => rowLe t.cols k a b = true) :=
      ⟨rowLe_trans t.cols k⟩
    exact ⟨rfl, List.perm_insertionSort _ _, List.sorted_insertionSort _ _⟩
  · intro hk
    simp only [sortStep]
    rw [if_neg hk]

/-- Witness for the amended C5: the sorted conclusion at a present column
and the unchanged conclusion at an absent one. -/
theorem C5_witness :
    (sortStep ⟨["name"], [[some "Zoe"], [some "N/A"]]⟩ (some "name")).rows.Perm
        [[some "Zoe"], [some "N/A"]] ∧
    sortStep ⟨["name"], [[some "Zoe"], [some "N/A"]]⟩ (some "zip")
        = ⟨["name"], [[some "Zoe"], [some "N/A"]]⟩ :=
  ⟨((C5_sort_is_lexicographic ⟨["name"], [[some "Zoe"], [some "N/A"]]⟩ "name").1
      (by decide)).2.1,
   (C5_sort_is_lexicographic ⟨["name"], [[some "Zoe"], [some "N/A"]]⟩ "zip").2
      (by decide)⟩

-- === Row-count lemmas for the pipeline ===

theorem length_filterEmptyCol (t : Table) (c : String) :
    (filterEmptyCol t c).rows.length ≤ t.rows.length := by
  unfold filterEmptyCol
  split
  · exact List.length_filter_le _ _
  · exact le_refl _

theorem length_foldl_filter : ∀ (cs : List String) (t : Table),
    (cs.foldl filterEmptyCol t).rows.length ≤ t.rows.length := by
  intro cs
  induction cs with
  | nil => intro t; exact le_refl _
  | cons c cs ih =>
    intro t
    simp only [List.foldl_cons]
    exact le_trans (ih (filterEmptyCol t c)) (length_filterEmptyCol t c)

theorem length_deduplicate (t : Table) (s : String) :
    (deduplicate t s).rows.length ≤ t.rows.length := by
  rw [deduplicate_eq]
  exact (dedupSeen_sublist _ _ _).length_le

theorem length_standardize (t : Table) :
    (standardize_columns t).rows.length = t.rows.length := rfl

theorem length_fill_and_strip (t : Table) (fv : String) :
    (fill_and_strip t fv).rows.length = t.rows.length :=
  List.length_map _ _

theorem length_apply_normalizations (t : Table) (ne np : Bool) :
    (apply_normalizations t ne np).rows.length = t.rows.length :=
  List.length_map _ _

theorem length_preDedup_ok (p : Params) (t u : Table)
    (h : preDedup p t = Except.ok u) : u.rows.length ≤ t.rows.length := by
  have hbase : ∀ v : Table,
      v = p.filter_empty.foldl filterEmptyCol
        (apply_normalizations (fill_and_strip (standardize_columns t) p.fill_empty_with)
          p.normalize_email p.normalize_phone) →
      v.rows.length ≤ t.rows.length := by
    intro v hv
    rw [hv]
    refine le_trans (length_foldl_filter _ _) ?_
    rw [length_apply_normalizations, length_fill_and_strip, length_standardize]
  unfold preDedup at h
  split at h
  · unfold keepComplete at h
    split at h
    · injection h with h2
      exact hbase u h2.symm
    · exact absurd h (by simp)
  · injection h with h2
    exact hbase u h2.symm

theorem length_processOne_ok (p : Params) (t u : Table)
    (h : processOne p t = Except.ok u) : u.rows.length ≤ t.rows.length := by
  unfold processOne at h
  cases hp : preDedup p t with
  | error e =>
    rw [hp] at h
    exact absurd h (by simp)
  | ok t5 =>
    rw [hp] at h
    injection h with h2
    rw [← h2]
    exact le_trans (length_deduplicate _ _) (length_preDedup_ok p t t5 hp)

theorem processAll_sum_le (p : Params) : ∀ (ts ps : List Table),
    processAll p ts = Except.ok ps →
    (ps.map fun u => u.rows.length).sum ≤ (ts.map fun u => u.rows.length).sum := by
  intro ts
  induction ts with
  | nil =>
    intro ps h
    unfold processAll at h
    injection h with h2
    rw [← h2]
  | cons t ts ih =>
    intro ps h
    unfold processAll at h
    cases h1 : processOne p t with
    | error e =>
      simp only [h1] at h
      exact Except.noConfusion h
    | ok t2 =>
      simp only [h1] at h
      cases h2 : processAll p ts with
      | error e =>
        simp only [h2] at h
        exact Except.noConfusion h
      | ok ts2 =>
        simp only [h2] at h
        injection h with h3
        rw [← h3]
        simp only [List.map_cons, List.sum_cons]
        exact Nat.add_le_add (length_processOne_ok p t t2 h1) (ih ts2 h2)

theorem length_concatRows (ts : List Table) :
    (concatRows ts).length = (ts.map fun t => t.rows.length).sum := by
  unfold concatRows
  rw [List.length_flatten, List.map_map]
  congr 1
  apply List.map_congr_left
  intro t _
  simp

theorem length_sortStep (t : Table) (sb : Option String) :
    (sortStep t sb).rows.length = t.rows.length := by
  cases sb with
  | none => rfl
  | some k =>
    simp only [sortStep]
    split
    · exact (List.perm_insertionSort _ _).length_eq
    · rfl

/-- C6: whenever the cleaning run completes with a final merged table,
that table has at most as many rows as the input tables combined: no
pipeline stage ever adds rows. (Runs that enable the
keep-only-complete-rows step on a nonempty table raise `ValueError` and
produce no final table at all, so they satisfy the bound vacuously.) -/
theorem C6_pipeline_never_adds_rows (text : String) (ts : List Table) (t : Table)
    (h : pipelineRun text ts = Except.ok t) :
    t.rows.length ≤ (ts.map fun u => u.rows.length).sum := by
  unfold pipelineRun at h
  cases hp : processAll (parse_instructions text) ts with
  | error e =>
    simp only [hp] at h
    exact Except.noConfusion h
  | ok ps =>
    simp only [hp] at h
    injection h with h2
    rw [← h2, length_sortStep]
    refine le_trans (length_deduplicate _ _) ?_
    show (concatRows ps).length ≤ _
    rw [length_concatRows]
    exact processAll_sum_le (parse_instructions text) ts ps hp

/-- Witness for C6: a concrete completed run (two duplicate input rows,
one merged output row). -/
theorem C6_witness :
    (⟨["a"], [[some "x"]]⟩ : Table).rows.length ≤
      (([⟨["a"], [[some "x"], [some "x"]]⟩] : List Table).map
        fun u => u.rows.length).sum :=
  C6_pipeline_never_adds_rows "" [⟨["a"], [[some "x"], [some "x"]]⟩]
    ⟨["a"], [[some "x"]]⟩ rfl
